import Mathlib

/-!
Verification of the activity-calendar conditioning and layout pipeline.

The source is a JavaScript class built on moment.js and d3.  The shallow
embedding below models:

* calendar dates as `Date` triples (year, month, day) in the proleptic
  Gregorian calendar, with `toDayNumber` the day count since 0001-01-01
  (a Monday), matching moment's timestamp order on valid dates;
* moment operations used by the source: comparison (`dltB`), `add(n, "day")`
  (`addDays`), `add(1, "week")` (`addDays 7`), `add(1, "month")`
  (`addMonths1`, clamping the day to the target month's length),
  `startOf("isoWeek")` (`subDays (isoWeekday - 1)`), `isoWeekday`, `isoWeek`;
* format strings as structured values: `"YYYY-MM-DD"` is the triple itself,
  `"YYYY-W"` is the pair `(year, isoWeek)` (`weekKeyOf`), and the key
  produced for an unparseable date is `none : Option Date`; each of these
  string formats is injective on the values the program produces, so the
  structured representation is faithful;
* d3 helpers `rollup`, `group`-style keying (first-encounter order),
  `extent`, `scaleQuantize`, and JavaScript `Array.prototype.indexOf`
  (`indexOfJS`, `-1` sentinel).

JavaScript `while` loops are modelled by structural recursion on a fuel
argument; each top-level wrapper passes a fuel that provably exceeds the
number of iterations, so the fuelled function computes exactly the loop's
result.
-/

structure Date where
  year : Nat
  month : Nat
  day : Nat
deriving DecidableEq

/-- Gregorian leap-year rule, as implemented by moment.js. -/
def isLeap (y : Nat) : Bool :=
  (y % 4 == 0 && y % 100 != 0) || y % 400 == 0

/-- Number of days in a month (month 0 is a padding value for the
`daysBeforeMonth` recursion and never denotes a real month). -/
def daysInMonth (y m : Nat) : Nat :=
  if m = 0 then 0
  else if m = 2 then (if isLeap y then 29 else 28)
  else if m = 4 ∨ m = 6 ∨ m = 9 ∨ m = 11 then 30
  else 31

def daysInYear (y : Nat) : Nat :=
  if isLeap y then 366 else 365

/-- Days of year `y` that precede the first day of month `m`. -/
def daysBeforeMonth (y : Nat) : Nat → Nat
  | 0 => 0
  | m + 1 => daysBeforeMonth y m + daysInMonth y m

/-- Days strictly before January 1 of year `y`, counting from 0001-01-01. -/
def daysBeforeYear (y : Nat) : Nat :=
  365 * (y - 1) + (y - 1) / 4 - (y - 1) / 100 + (y - 1) / 400

/-- Day number of a date: 0001-01-01 is day 0.  This is the metric
underlying moment's timestamps (at day granularity). -/
def toDayNumber (dt : Date) : Nat :=
  daysBeforeYear dt.year + daysBeforeMonth dt.year dt.month + (dt.day - 1)

/-- A real calendar date of the proleptic Gregorian calendar (year ≥ 1). -/
def Date.Valid (dt : Date) : Prop :=
  1 ≤ dt.year ∧ 1 ≤ dt.month ∧ dt.month ≤ 12 ∧ 1 ≤ dt.day ∧
    dt.day ≤ daysInMonth dt.year dt.month

instance (dt : Date) : Decidable dt.Valid := by
  unfold Date.Valid; infer_instance

/-- moment's `<` on dates: chronological order, which on valid triples is
lexicographic order. -/
def dltB (a b : Date) : Bool :=
  decide (a.year < b.year) ||
    (decide (a.year = b.year) &&
      (decide (a.month < b.month) ||
        (decide (a.month = b.month) && decide (a.day < b.day))))

/-- moment's `<=` on dates (used in specification statements about the
half-open range `[dateStart, dateEnd)`). -/
def dleB (a b : Date) : Bool :=
  dltB a b || decide (a = b)

/-- The successor day (moment `add(1, "day")`). -/
def addDays1 (dt : Date) : Date :=
  if dt.day + 1 ≤ daysInMonth dt.year dt.month then ⟨dt.year, dt.month, dt.day + 1⟩
  else if dt.month < 12 then ⟨dt.year, dt.month + 1, 1⟩
  else ⟨dt.year + 1, 1, 1⟩

/-- moment `add(n, "day")`. -/
def addDays : Nat → Date → Date
  | 0, dt => dt
  | n + 1, dt => addDays n (addDays1 dt)

/-- The previous day. -/
def subDays1 (dt : Date) : Date :=
  if 2 ≤ dt.day then ⟨dt.year, dt.month, dt.day - 1⟩
  else if 2 ≤ dt.month then ⟨dt.year, dt.month - 1, daysInMonth dt.year (dt.month - 1)⟩
  else ⟨dt.year - 1, 12, 31⟩

/-- moment `subtract(n, "day")`. -/
def subDays : Nat → Date → Date
  | 0, dt => dt
  | n + 1, dt => subDays n (subDays1 dt)

/-- moment `add(1, "month")`: bump the month, clamping the day-of-month to
the length of the target month. -/
def addMonths1 (dt : Date) : Date :=
  if dt.month < 12 then ⟨dt.year, dt.month + 1, min dt.day (daysInMonth dt.year (dt.month + 1))⟩
  else ⟨dt.year + 1, 1, min dt.day 31⟩

/-- ISO weekday, Monday = 1 .. Sunday = 7 (moment `isoWeekday()`);
0001-01-01 is a Monday. -/
def isoWeekday (dt : Date) : Nat :=
  toDayNumber dt % 7 + 1

/-- Ordinal day of the year, 1-based. -/
def dayOfYear (dt : Date) : Nat :=
  daysBeforeMonth dt.year dt.month + dt.day

/-- Number of ISO weeks in year `y`: 53 when January 1 is a Thursday, or a
Wednesday of a leap year; else 52. -/
def weeksInIsoYear (y : Nat) : Nat :=
  if isoWeekday ⟨y, 1, 1⟩ = 4 ∨ (isLeap y = true ∧ isoWeekday ⟨y, 1, 1⟩ = 3) then 53 else 52

/-- ISO-8601 week number (moment `isoWeek()` / format `"W"`). -/
def isoWeek (dt : Date) : Nat :=
  let w := (dayOfYear dt + 10 - isoWeekday dt) / 7
  if w = 0 then weeksInIsoYear (dt.year - 1)
  else if w = 53 ∧ weeksInIsoYear dt.year = 52 then 1
  else w

/-- moment `format("YYYY-W")`: the calendar year paired with the ISO week
number.  The format string pads the year to 4 digits and leaves the week
unpadded, so the string is in bijection with this pair. -/
def weekKeyOf (dt : Date) : Nat × Nat :=
  (dt.year, isoWeek dt)

/-! ## d3 and JavaScript helpers -/

/-- Keys of a list under `f`, first-encounter order, no duplicates.  Models
the key ordering of d3's `InternMap` (used by `rollup`/`groups`) and of a
JavaScript `Set`. -/
def dedupF {α : Type} [DecidableEq α] : List α → List α
  | [] => []
  | a :: l => a :: (dedupF l).filter (fun b => decide (b ≠ a))

/-- One level of d3 grouping: each first-encounter key paired with the
sublist of elements mapped to it. -/
def groupByFirst {α κ : Type} [DecidableEq κ] (f : α → κ) (l : List α) :
    List (κ × List α) :=
  (dedupF (l.map f)).map (fun k => (k, l.filter (fun a => decide (f a = k))))

/-- JavaScript `Array.prototype.indexOf`: index of the first occurrence,
`-1` when absent. -/
def indexOfJS {α : Type} [DecidableEq α] : List α → α → Int
  | [], _ => -1
  | a :: l, x =>
    if a = x then 0
    else if indexOfJS l x = -1 then -1 else indexOfJS l x + 1

/-! ## The program's data model

An input record (`{date, type, value}`).  The `date` field holds the result
of moment's parse of the record's ISO date string: `none` models a string
moment cannot parse (its `format("YYYY-MM-DD")` is then the fixed string
`"Invalid date"`, which the rollup uses as a key like any other). -/

structure Rec where
  date : Option Date
  type : String
  value : Int
deriving DecidableEq

/-- `activityTypesMerged`: all records of all series concatenated in key
order (the `for (const key in this.dataSource)` loop). -/
def mergedRecords (data : List (String × List Rec)) : List Rec :=
  (data.map Prod.snd).flatten

/-- `rollup(activityTypesMerged, v => v.length, d => format(d.date), d => d.type)`:
per-day, per-type record counts (`this.dataAggregateDays`). -/
def rollup2 (l : List Rec) : List (Option Date × List (String × Nat)) :=
  (groupByFirst (fun r => r.date) l).map
    (fun g => (g.1, (groupByFirst (fun r => r.type) g.2).map (fun h => (h.1, h.2.length))))

/-- `Object.keys(data)`, the activity types. -/
def activityTypes (data : List (String × List Rec)) : List String :=
  data.map Prod.fst

/-! ## isoDaysofWeek and the conditioning loops -/

/-- Body of the `while (weekStart < weekEnd)` loop of `isoDaysofWeek`,
with fuel. -/
def isoDaysGo : Nat → Date → Date → List Date
  | 0, _, _ => []
  | fuel + 1, cur, stop =>
    if dltB cur stop then cur :: isoDaysGo fuel (addDays1 cur) stop else []

/-- `isoDaysofWeek(currentDate)`: starts at `startOf("isoWeek")` and pushes
days while strictly before `currentDate + 6 days`.  (The loop runs
`isoWeekday + 5 ≤ 12` times on a valid date; fuel 14 exceeds that.) -/
def isoDaysofWeek (dt : Date) : List Date :=
  isoDaysGo 14 (subDays (isoWeekday dt - 1) dt) (addDays 6 dt)

/-- Body of one step of the weeks loop in `get data`: the emitted key is
the stepped date's own `"YYYY-W"` unless `isoDaysofWeek` of the stepped
date contains a first-of-month day, in which case that day's key is used
(`firstOfMonths[0]`; the filter compares `split("-")[2]` with `"01"`,
i.e. the day-of-month with 1). -/
def stepKey (dt : Date) : Nat × Nat :=
  match (isoDaysofWeek dt).filter (fun x => decide (x.day = 1)) with
  | [] => weekKeyOf dt
  | f :: _ => weekKeyOf f

/-- The `while (dateStart < dateEnd)` weeks loop, with fuel; the cursor
advances by `add(1, "week")` = 7 days. -/
def weeksF : Nat → Date → Date → List (Nat × Nat)
  | 0, _, _ => []
  | fuel + 1, s, e =>
    if dltB s e then stepKey s :: weeksF fuel (addDays 7 s) e else []

/-- `this.weekIndicies`: the list of week keys for the range.  The fuel
exceeds the iteration count, which is at most `⌈(end - start) / 7⌉`. -/
def weeksList (s e : Date) : List (Nat × Nat) :=
  weeksF (toDayNumber e + 7 - toDayNumber s) s e

/-- The `while (dateStart < dateEnd)` months loop, with fuel; the cursor
advances by `add(1, "month")`. -/
def monthsF : Nat → Date → Date → List Date
  | 0, _, _ => []
  | fuel + 1, s, e =>
    if dltB s e then s :: monthsF fuel (addMonths1 s) e else []

/-- `this.months`: the month-annotation dates.  Each iteration increases
`12 * year + month` by exactly 1, so the fuel exceeds the iteration
count. -/
def monthsList (s e : Date) : List Date :=
  monthsF (12 * (e.year + 2) - 12 * s.year) s e

/-! ## Cell extraction, conditioning result, layout, lookups -/

/-- `d[1][key]` after `Object.fromEntries`: association-list lookup (the
grouped type keys are distinct, so `find?` is exact; the default is never
reached on the filtered entries). -/
def typesVal (types : List (String × Nat)) (key : String) : Nat :=
  ((types.find? (fun q => decide (q.1 = key))).map (fun q => q.2)).getD 0

/-- `extractActivity(key)`: DayCount entries whose type set includes `key`,
projected to `[date, count, key]` triples. -/
def extractActivity (dc : List (Option Date × List (String × Nat))) (key : String) :
    List (Option Date × Nat × String) :=
  ((dc.filter (fun p => decide (key ∈ p.2.map Prod.fst))).map
    (fun p => (p.1, typesVal p.2 key, key)))

/-- `this.dataCells = this.activityTypes.map(d => this.extractActivity(d)).flat()`. -/
def dataCellsOf (data : List (String × List Rec)) : List (Option Date × Nat × String) :=
  ((activityTypes data).map
    (fun ty => extractActivity (rollup2 (mergedRecords data)) ty)).flatten

/-- The derived state written by one run of the `get data` conditioning
pass (the fields the claims are about; `weekdays` is a locale string list
and is not modelled). -/
structure CondResult where
  dayCount : List (Option Date × List (String × Nat))
  weekIndicies : List (Nat × Nat)
  months : List Date
  dataCells : List (Option Date × Nat × String)
deriving DecidableEq

/-- The body of `get data` (inside the data-presence guard). -/
def conditionBody (data : List (String × List Rec)) (s e : Date) : CondResult :=
  { dayCount := rollup2 (mergedRecords data)
    weekIndicies := weeksList s e
    months := monthsList s e
    dataCells := dataCellsOf data }

/-- `get data` with its guard: with no series the pass writes nothing (the
fields keep their constructor value `null`, modelled as `none`). -/
def condition (data : List (String × List Rec)) (s e : Date) : Option CondResult :=
  if data.isEmpty then none else some (conditionBody data s e)

/-- The outputs of `get layout`. -/
structure LayoutR where
  paddingDaysOfWeek : Nat
  paddingMonthsOfYear : Nat
  height : Nat
  width : Int
deriving DecidableEq

/-- `get layout`: `moment(dateEnd).diff(moment(dateStart), "week")` is the
day difference divided by 7, truncated toward zero (moment's `absFloor`),
hence `Int.tdiv`. -/
def layoutCalc (s e : Date) (cellSize : Nat) : LayoutR :=
  { paddingDaysOfWeek := cellSize
    paddingMonthsOfYear := cellSize
    height := cellSize * 7 + cellSize
    width := (cellSize : Int) * (((toDayNumber e : Int) - (toDayNumber s : Int)).tdiv 7) + (cellSize : Int) }

/-- The `columnWeek` lookup of `configureCellShapes`: if `isoDaysofWeek` of
the cell's date contains a January 1, look up that day's key, else the
date's own key; `indexOf` yields `-1` when the key is absent. -/
def columnWeek (wI : List (Nat × Nat)) (d0 : Date) : Int :=
  indexOfJS wI
    (match (isoDaysofWeek d0).filter (fun x => decide (x.month = 1 ∧ x.day = 1)) with
     | [] => weekKeyOf d0
     | f :: _ => weekKeyOf f)

/-- `extent(values)` lower end (d3 returns `undefined` on an empty list;
the degenerate default 0 is never relied on). -/
def extentMin (l : List Nat) : Nat :=
  l.min?.getD 0

/-- `extent(values)` upper end. -/
def extentMax (l : List Nat) : Nat :=
  l.max?.getD 0

/-- `constructThreshold()`: d3 `scaleQuantize().domain(extent(values)).range([1,2,3])`.
With domain `[mn, mx]` the thresholds are `mn + (mx-mn)/3` and
`mn + 2(mx-mn)/3`, and `bisectRight` sends a value equal to a threshold to
the higher bucket.  Scaling the comparisons by 3 keeps the arithmetic in
integers; on integer counts this is exactly d3's classification. -/
def constructThreshold (cells : List (Option Date × Nat × String)) : Nat → Nat :=
  fun x =>
    let mn := extentMin (cells.map (fun c => c.2.1))
    let mx := extentMax (cells.map (fun c => c.2.1))
    if 3 * x < 2 * mn + mx then 1
    else if 3 * x < mn + 2 * mx then 2
    else 3

/-- Sum, over all activity types, of the aggregated counts stored for one
day key (0 when the key is absent): the quantity the count-conservation
property is about. -/
def typeCountSum (dc : List (Option Date × List (String × Nat))) (k : Option Date) : Nat :=
  ((dc.find? (fun p => decide (p.1 = k))).map
    (fun p => (p.2.map (fun q => q.2)).sum)).getD 0

/-- Lookup of the aggregated count for one (day, type) pair in the rollup
(the map-of-maps access `dataAggregateDays.get(day).get(type)`). -/
def dcLookup (dc : List (Option Date × List (String × Nat))) (dk : Option Date) (ty : String) :
    Option Nat :=
  (dc.find? (fun p => decide (p.1 = dk))).bind
    (fun p => (p.2.find? (fun q => decide (q.1 = ty))).map (fun q => q.2))

/-! ## The README variant's month-annotation lookup

`src/README.md` carries an earlier revision of the class whose
`configureAnnotationMonths` resolves the year-boundary ("52/53") ambiguity
explicitly; `this.years` there is the de-duplicated list of year components
of `weekIndicies`. -/

/-- `this.years = [...new Set(this.weekIndicies.map(d => d.split("-")[0]))]`. -/
def readmeYears (wI : List (Nat × Nat)) : List Nat :=
  dedupF (wI.map Prod.fst)

/-- The `yearWeek` lookup key computed by the README revision's
`configureAnnotationMonths` for a month date `d`. -/
def readmeMonthKey (wI : List (Nat × Nat)) (d : Date) : Nat × Nat :=
  let isoW := isoWeek d
  if (readmeYears wI).length > 1 ∧ (isoW = 53 ∨ isoW = 1) then
    (if isoW = 1 then (d.year, 1) else (d.year - 1, isoW))
  else (d.year, isoW)

/-- The `x` attribute of a month annotation in the README revision:
`weekIndex === -1 ? this.artboardUnit : weekIndex * this.cellWidth`. -/
def readmeMonthX (wI : List (Nat × Nat)) (d : Date) (cellWidth artboardUnit : Int) : Int :=
  let weekIndex := indexOfJS wI (readmeMonthKey wI d)
  if weekIndex = -1 then artboardUnit else weekIndex * cellWidth

/-! ## Calendar arithmetic lemmas -/

theorem year_mk (y m d : Nat) : (Date.mk y m d).year = y := rfl

theorem month_mk (y m d : Nat) : (Date.mk y m d).month = m := rfl

theorem day_mk (y m d : Nat) : (Date.mk y m d).day = d := rfl

theorem daysBeforeMonth_step (y m : Nat) :
    daysBeforeMonth y (m + 1) = daysBeforeMonth y m + daysInMonth y m := rfl

theorem daysInMonth_twelve (y : Nat) : daysInMonth y 12 = 31 := by
  unfold daysInMonth
  norm_num

theorem daysBeforeMonth_thirteen (y : Nat) : daysBeforeMonth y 13 = daysInYear y := by
  have e : daysBeforeMonth y 13 =
      daysInMonth y 1 + daysInMonth y 2 + daysInMonth y 3 + daysInMonth y 4 +
        daysInMonth y 5 + daysInMonth y 6 + daysInMonth y 7 + daysInMonth y 8 +
        daysInMonth y 9 + daysInMonth y 10 + daysInMonth y 11 + daysInMonth y 12 := by
    show daysBeforeMonth y (12 + 1) = _
    rw [daysBeforeMonth_step, show (12 : Nat) = 11 + 1 from rfl, daysBeforeMonth_step,
      show (11 : Nat) = 10 + 1 from rfl, daysBeforeMonth_step,
      show (10 : Nat) = 9 + 1 from rfl, daysBeforeMonth_step,
      show (9 : Nat) = 8 + 1 from rfl, daysBeforeMonth_step,
      show (8 : Nat) = 7 + 1 from rfl, daysBeforeMonth_step,
      show (7 : Nat) = 6 + 1 from rfl, daysBeforeMonth_step,
      show (6 : Nat) = 5 + 1 from rfl, daysBeforeMonth_step,
      show (5 : Nat) = 4 + 1 from rfl, daysBeforeMonth_step,
      show (4 : Nat) = 3 + 1 from rfl, daysBeforeMonth_step,
      show (3 : Nat) = 2 + 1 from rfl, daysBeforeMonth_step,
      show (2 : Nat) = 1 + 1 from rfl, daysBeforeMonth_step,
      show (1 : Nat) = 0 + 1 from rfl, daysBeforeMonth_step]
    have hz : daysBeforeMonth y 0 = 0 := rfl
    have hz2 : daysInMonth y 0 = 0 := rfl
    omega
  rw [e]
  by_cases h : isLeap y = true <;>
    simp [daysInMonth, daysInYear, h]

set_option maxHeartbeats 1600000 in
theorem daysBeforeYear_succ (y : Nat) (hy : 1 ≤ y) :
    daysBeforeYear (y + 1) = daysBeforeYear y + daysInYear y := by
  unfold daysBeforeYear daysInYear isLeap
  by_cases hL : ((y % 4 == 0 && y % 100 != 0) || y % 400 == 0) = true
  · rw [if_pos hL]
    simp only [Bool.or_eq_true, Bool.and_eq_true, beq_iff_eq, bne_iff_ne, ne_eq] at hL
    omega
  · rw [if_neg hL]
    simp only [Bool.or_eq_true, Bool.and_eq_true, beq_iff_eq, bne_iff_ne, ne_eq] at hL
    push_neg at hL
    omega

theorem daysInMonth_pos (y m : Nat) (h1 : 1 ≤ m) (h2 : m ≤ 12) : 1 ≤ daysInMonth y m := by
  unfold daysInMonth
  split_ifs <;> omega

theorem addDays1_valid (dt : Date) (h : dt.Valid) : (addDays1 dt).Valid := by
  obtain ⟨y, m, d⟩ := dt
  simp only [Date.Valid] at h
  try dsimp only at h
  obtain ⟨h1, h2, h3, h4, h5⟩ := h
  unfold addDays1
  try dsimp only
  split_ifs with hA hB
  · simp only [Date.Valid]
    try dsimp only
    omega
  · have hp := daysInMonth_pos y (m + 1) (by omega) (by omega)
    simp only [Date.Valid]
    try dsimp only
    omega
  · have hp := daysInMonth_pos (y + 1) 1 (by omega) (by omega)
    simp only [Date.Valid]
    try dsimp only
    omega

theorem toDayNumber_addDays1 (dt : Date) (h : dt.Valid) :
    toDayNumber (addDays1 dt) = toDayNumber dt + 1 := by
  obtain ⟨y, m, d⟩ := dt
  simp only [Date.Valid] at h
  try dsimp only at h
  obtain ⟨h1, h2, h3, h4, h5⟩ := h
  unfold addDays1
  try dsimp only
  split_ifs with hA hB
  · unfold toDayNumber
    try dsimp only
    omega
  · unfold toDayNumber
    try dsimp only
    have hstep := daysBeforeMonth_step y m
    omega
  · have hm : m = 12 := by omega
    subst hm
    have h31 := daysInMonth_twelve y
    have hd : d = 31 := by omega
    subst hd
    unfold toDayNumber
    try dsimp only
    have hy := daysBeforeYear_succ y h1
    have h13 := daysBeforeMonth_thirteen y
    have hs12 : daysBeforeMonth y 13 = daysBeforeMonth y 12 + daysInMonth y 12 :=
      daysBeforeMonth_step y 12
    have hz : daysBeforeMonth (y + 1) 1 = 0 := rfl
    omega

theorem addDays_valid (n : Nat) (dt : Date) (h : dt.Valid) : (addDays n dt).Valid := by
  induction n generalizing dt with
  | zero => exact h
  | succ k ih => exact ih (addDays1 dt) (addDays1_valid dt h)

theorem toDayNumber_addDays (n : Nat) (dt : Date) (h : dt.Valid) :
    toDayNumber (addDays n dt) = toDayNumber dt + n := by
  induction n generalizing dt with
  | zero => rfl
  | succ k ih =>
    show toDayNumber (addDays k (addDays1 dt)) = _
    rw [ih (addDays1 dt) (addDays1_valid dt h), toDayNumber_addDays1 dt h]
    omega

theorem addDays_addDays (a b : Nat) (dt : Date) :
    addDays a (addDays b dt) = addDays (b + a) dt := by
  induction b generalizing dt with
  | zero =>
    show addDays a dt = addDays (0 + a) dt
    rw [Nat.zero_add]
  | succ n ih =>
    show addDays a (addDays n (addDays1 dt)) = addDays (n + 1 + a) dt
    rw [ih (addDays1 dt)]
    have hn : n + 1 + a = (n + a) + 1 := by omega
    rw [hn]
    rfl

theorem daysBeforeMonth_mono (y : Nat) {m m' : Nat} (h : m ≤ m') :
    daysBeforeMonth y m ≤ daysBeforeMonth y m' := by
  induction m', h using Nat.le_induction with
  | base => exact le_refl _
  | succ k hk ih =>
    calc daysBeforeMonth y m ≤ daysBeforeMonth y k := ih
    _ ≤ daysBeforeMonth y k + daysInMonth y k := Nat.le_add_right _ _
    _ = daysBeforeMonth y (k + 1) := (daysBeforeMonth_step y k).symm

theorem daysBeforeYear_mono {y y' : Nat} (h : y ≤ y') :
    daysBeforeYear y ≤ daysBeforeYear y' := by
  induction y', h using Nat.le_induction with
  | base => exact le_refl _
  | succ k hk ih =>
    rcases Nat.eq_zero_or_pos k with h0 | h1
    · subst h0
      have hy0 : y = 0 := by omega
      subst hy0
      unfold daysBeforeYear
      norm_num
    · calc daysBeforeYear y ≤ daysBeforeYear k := ih
      _ ≤ daysBeforeYear k + daysInYear k := Nat.le_add_right _ _
      _ = daysBeforeYear (k + 1) := (daysBeforeYear_succ k h1).symm

theorem dayOffset_lt_daysInYear (y m d : Nat) (h2 : 1 ≤ m) (h3 : m ≤ 12)
    (h4 : 1 ≤ d) (h5 : d ≤ daysInMonth y m) :
    daysBeforeMonth y m + (d - 1) < daysInYear y := by
  have hstep := daysBeforeMonth_step y m
  have hmono := daysBeforeMonth_mono y (show m + 1 ≤ 13 by omega)
  have h13 := daysBeforeMonth_thirteen y
  omega

theorem toDayNumber_lt_of_dlt (a b : Date) (ha : a.Valid) (hb : b.Valid)
    (h : dltB a b = true) : toDayNumber a < toDayNumber b := by
  obtain ⟨y, m, d⟩ := a
  obtain ⟨y', m', d'⟩ := b
  simp only [Date.Valid] at ha hb
  try dsimp only at ha hb
  obtain ⟨ha1, ha2, ha3, ha4, ha5⟩ := ha
  obtain ⟨hb1, hb2, hb3, hb4, hb5⟩ := hb
  simp only [dltB, Bool.or_eq_true, Bool.and_eq_true, decide_eq_true_eq] at h
  try dsimp only at h
  unfold toDayNumber
  try dsimp only
  rcases h with hy | ⟨hy, hm | ⟨hm, hd⟩⟩
  · have hin := dayOffset_lt_daysInYear y m d ha2 ha3 ha4 ha5
    have hsy := daysBeforeYear_succ y ha1
    have hmono := daysBeforeYear_mono (show y + 1 ≤ y' by omega)
    omega
  · subst hy
    have hstep := daysBeforeMonth_step y m
    have hmono := daysBeforeMonth_mono y (show m + 1 ≤ m' by omega)
    omega
  · subst hy
    subst hm
    omega

theorem dlt_trichotomy (a b : Date) : dltB a b = true ∨ a = b ∨ dltB b a = true := by
  obtain ⟨y, m, d⟩ := a
  obtain ⟨y', m', d'⟩ := b
  simp only [dltB, Bool.or_eq_true, Bool.and_eq_true, decide_eq_true_eq, Date.mk.injEq]
  try dsimp only
  omega

theorem toDayNumber_lt_iff (a b : Date) (ha : a.Valid) (hb : b.Valid) :
    dltB a b = true ↔ toDayNumber a < toDayNumber b := by
  constructor
  · exact toDayNumber_lt_of_dlt a b ha hb
  · intro hlt
    rcases dlt_trichotomy a b with h | h | h
    · exact h
    · subst h
      omega
    · have := toDayNumber_lt_of_dlt b a hb ha h
      omega

/-! ## Order helper lemmas -/

theorem dleB_refl (a : Date) : dleB a a = true := by
  simp [dleB]

theorem dleB_of_dltB {a b : Date} (h : dltB a b = true) : dleB a b = true := by
  simp [dleB, h]

theorem dltB_trans {a b c : Date} (h1 : dltB a b = true) (h2 : dltB b c = true) :
    dltB a c = true := by
  obtain ⟨y1, m1, d1⟩ := a
  obtain ⟨y2, m2, d2⟩ := b
  obtain ⟨y3, m3, d3⟩ := c
  simp only [dltB, Bool.or_eq_true, Bool.and_eq_true, decide_eq_true_eq] at h1 h2 ⊢
  try dsimp only at h1 h2 ⊢
  omega

theorem dltB_of_dleB_of_dltB {a b c : Date} (h1 : dleB a b = true) (h2 : dltB b c = true) :
    dltB a c = true := by
  rcases (by simpa [dleB] using h1 : dltB a b = true ∨ a = b) with h | h
  · exact dltB_trans h h2
  · subst h
    exact h2

theorem dltB_of_dltB_of_dleB {a b c : Date} (h1 : dltB a b = true) (h2 : dleB b c = true) :
    dltB a c = true := by
  rcases (by simpa [dleB] using h2 : dltB b c = true ∨ b = c) with h | h
  · exact dltB_trans h1 h
  · subst h
    exact h1

theorem dleB_trans {a b c : Date} (h1 : dleB a b = true) (h2 : dleB b c = true) :
    dleB a c = true := by
  rcases (by simpa [dleB] using h1 : dltB a b = true ∨ a = b) with h | h
  · exact dleB_of_dltB (dltB_of_dltB_of_dleB h h2)
  · subst h
    exact h2

/-! ## Weeks-loop lemmas -/

theorem weeksF_succ (k : Nat) (s e : Date) :
    weeksF (k + 1) s e =
      if dltB s e = true then stepKey s :: weeksF k (addDays 7 s) e else [] := rfl

theorem weeksF_nil_of_not_lt (fuel : Nat) (s e : Date) (h : dltB s e = false) :
    weeksF fuel s e = [] := by
  cases fuel <;> simp [weeksF, h]

theorem weeksF_length_eq (fuel : Nat) : ∀ s e : Date, s.Valid → e.Valid →
    toDayNumber e ≤ toDayNumber s + 7 * fuel →
    (weeksF fuel s e).length = (toDayNumber e - toDayNumber s + 6) / 7 := by
  induction fuel with
  | zero =>
    intro s e hs he hb
    simp only [weeksF, List.length_nil]
    omega
  | succ k ih =>
    intro s e hs he hb
    unfold weeksF
    by_cases hg : dltB s e = true
    · rw [if_pos hg]
      have hlt := (toDayNumber_lt_iff s e hs he).mp hg
      have hv7 : (addDays 7 s).Valid := addDays_valid 7 s hs
      have ht7 : toDayNumber (addDays 7 s) = toDayNumber s + 7 := toDayNumber_addDays 7 s hs
      have hlen := ih (addDays 7 s) e hv7 he (by omega)
      simp only [List.length_cons, hlen, ht7]
      omega
    · rw [if_neg hg]
      have hnlt : ¬ toDayNumber s < toDayNumber e := fun hlt =>
        hg ((toDayNumber_lt_iff s e hs he).mpr hlt)
      simp only [List.length_nil]
      omega

theorem weeksF_getElem (fuel : Nat) : ∀ (s e : Date) (i : Nat),
    i < (weeksF fuel s e).length →
    (weeksF fuel s e)[i]? = some (stepKey (addDays (7 * i) s)) := by
  induction fuel with
  | zero =>
    intro s e i h
    simp [weeksF] at h
  | succ k ih =>
    intro s e i h
    by_cases hg : dltB s e = true
    · rw [weeksF_succ, if_pos hg]
      cases i with
      | zero =>
        simp only [List.getElem?_cons_zero, Option.some.injEq]
        rfl
      | succ j =>
        rw [weeksF_succ, if_pos hg] at h
        simp only [List.length_cons, Nat.add_lt_add_iff_right] at h
        rw [List.getElem?_cons_succ, ih (addDays 7 s) e j h, addDays_addDays]
        have h77 : 7 + 7 * j = 7 * (j + 1) := by omega
        rw [h77]
    · rw [weeksF_nil_of_not_lt (k + 1) s e (by simpa using hg)] at h
      simp at h

/-! ## Months-loop lemmas -/

theorem monthsF_succ (k : Nat) (s e : Date) :
    monthsF (k + 1) s e =
      if dltB s e = true then s :: monthsF k (addMonths1 s) e else [] := rfl

theorem monthsF_nil_of_not_lt (fuel : Nat) (s e : Date) (h : dltB s e = false) :
    monthsF fuel s e = [] := by
  cases fuel <;> simp [monthsF, h]

theorem not_dltB_of_bound (s e : Date) (hsv : s.Valid) (hev : e.Valid)
    (hb : 12 * e.year + e.month + 1 ≤ 12 * s.year + s.month) : dltB s e = false := by
  obtain ⟨y, m, d⟩ := s
  obtain ⟨y', m', d'⟩ := e
  simp only [Date.Valid] at hsv hev
  try dsimp only at hsv hev hb
  by_cases hg : dltB ⟨y, m, d⟩ ⟨y', m', d'⟩ = true
  · exfalso
    simp only [dltB, Bool.or_eq_true, Bool.and_eq_true, decide_eq_true_eq] at hg
    try dsimp only at hg
    omega
  · simpa using hg

theorem addMonths1_first (s : Date) (hd : s.day = 1) (hv : s.Valid) :
    (addMonths1 s).day = 1 ∧ (addMonths1 s).Valid ∧
      12 * (addMonths1 s).year + (addMonths1 s).month = 12 * s.year + s.month + 1 ∧
      dltB s (addMonths1 s) = true := by
  obtain ⟨y, m, d⟩ := s
  try dsimp only at hd
  subst hd
  simp only [Date.Valid] at hv
  try dsimp only at hv
  obtain ⟨h1, h2, h3, h4, h5⟩ := hv
  unfold addMonths1
  try dsimp only
  split_ifs with hA
  · have hp : 1 ≤ daysInMonth y (m + 1) := daysInMonth_pos y (m + 1) (by omega) (by omega)
    have hmin : min 1 (daysInMonth y (m + 1)) = 1 := Nat.min_eq_left hp
    refine ⟨?_, ?_, ?_, ?_⟩
    · try dsimp only
      exact hmin
    · simp only [Date.Valid]
      try dsimp only
      rw [hmin]
      omega
    · simp only [year_mk, month_mk]
      omega
    · simp only [dltB, Bool.or_eq_true, Bool.and_eq_true, decide_eq_true_eq, year_mk,
        month_mk, day_mk, hmin, true_and, and_true]
      omega
  · have hm : m = 12 := by omega
    subst hm
    have hmin : min 1 31 = 1 := by norm_num
    refine ⟨?_, ?_, ?_, ?_⟩
    · try dsimp only
      exact hmin
    · simp only [Date.Valid]
      try dsimp only
      rw [hmin]
      have hp : 1 ≤ daysInMonth (y + 1) 1 := daysInMonth_pos (y + 1) 1 (by omega) (by omega)
      omega
    · simp only [year_mk, month_mk]
      omega
    · simp only [dltB, Bool.or_eq_true, Bool.and_eq_true, decide_eq_true_eq, year_mk,
        month_mk, day_mk, hmin, true_and, and_true]
      omega

theorem first_gap (s x : Date) (hsd : s.day = 1) (hsv : s.Valid) (hxv : x.Valid)
    (hxd : x.day = 1) (h : dltB s x = true) : dleB (addMonths1 s) x = true := by
  obtain ⟨y, m, d⟩ := s
  obtain ⟨y', m', d'⟩ := x
  try dsimp only at hsd hxd
  subst hsd
  subst hxd
  simp only [Date.Valid] at hsv hxv
  try dsimp only at hsv hxv
  obtain ⟨hs1, hs2, hs3, hs4, hs5⟩ := hsv
  obtain ⟨hx1, hx2, hx3, hx4, hx5⟩ := hxv
  simp only [dltB, Bool.or_eq_true, Bool.and_eq_true, decide_eq_true_eq, year_mk,
    month_mk, day_mk] at h
  unfold addMonths1
  simp only [year_mk, month_mk, day_mk]
  split_ifs with hA
  · have hp : 1 ≤ daysInMonth y (m + 1) := daysInMonth_pos y (m + 1) (by omega) (by omega)
    have hmin : min 1 (daysInMonth y (m + 1)) = 1 := Nat.min_eq_left hp
    rw [hmin]
    simp only [dleB, dltB, Bool.or_eq_true, Bool.and_eq_true, decide_eq_true_eq,
      Date.mk.injEq, year_mk, month_mk, day_mk, true_and, and_true]
    omega
  · have hm : m = 12 := by omega
    subst hm
    have hmin : min 1 31 = 1 := by norm_num
    rw [hmin]
    simp only [dleB, dltB, Bool.or_eq_true, Bool.and_eq_true, decide_eq_true_eq,
      Date.mk.injEq, year_mk, month_mk, day_mk, true_and, and_true]
    omega

theorem monthsF_spec (fuel : Nat) : ∀ s e : Date, s.day = 1 → s.Valid → e.Valid →
    12 * e.year + e.month + 1 ≤ 12 * s.year + s.month + fuel →
    ((∀ x : Date, x ∈ monthsF fuel s e ↔
        (x.Valid ∧ x.day = 1 ∧ dleB s x = true ∧ dltB x e = true)) ∧
      (monthsF fuel s e).Chain' (fun a b => dltB a b = true)) := by
  induction fuel with
  | zero =>
    intro s e hsd hsv hev hb
    have hne : dltB s e = false := not_dltB_of_bound s e hsv hev (by omega)
    constructor
    · intro x
      simp only [monthsF, List.not_mem_nil, false_iff]
      rintro ⟨hxv, hxd, h1, h2⟩
      exact absurd (dltB_of_dleB_of_dltB h1 h2) (by simp [hne])
    · exact List.chain'_nil
  | succ k ih =>
    intro s e hsd hsv hev hb
    by_cases hg : dltB s e = true
    · obtain ⟨hd1, hv1, hidx, hlt1⟩ := addMonths1_first s hsd hsv
      have hbound : 12 * e.year + e.month + 1 ≤
          12 * (addMonths1 s).year + (addMonths1 s).month + k := by omega
      obtain ⟨ihm, ihc⟩ := ih (addMonths1 s) e hd1 hv1 hev hbound
      rw [monthsF_succ, if_pos hg]
      constructor
      · intro x
        simp only [List.mem_cons]
        constructor
        · rintro (rfl | hx)
          · exact ⟨hsv, hsd, dleB_refl _, hg⟩
          · obtain ⟨hxv, hxd, h1, h2⟩ := (ihm x).mp hx
            exact ⟨hxv, hxd, dleB_trans (dleB_of_dltB hlt1) h1, h2⟩
        · rintro ⟨hxv, hxd, h1, h2⟩
          by_cases hxs : x = s
          · exact Or.inl hxs
          · right
            have hsx : dltB s x = true := by
              rcases (by simpa [dleB] using h1 : dltB s x = true ∨ s = x) with hc | hc
              · exact hc
              · exact absurd hc.symm hxs
            exact (ihm x).mpr ⟨hxv, hxd, first_gap s x hsd hsv hxv hxd hsx, h2⟩
      · apply List.chain'_cons'.mpr
        refine ⟨?_, ihc⟩
        intro y hy
        have hymem : y ∈ monthsF k (addMonths1 s) e := List.mem_of_mem_head? hy
        obtain ⟨hyv, hyd, h1, h2⟩ := (ihm y).mp hymem
        exact dltB_of_dltB_of_dleB hlt1 h1
    · have hne : dltB s e = false := by simpa using hg
      rw [monthsF_nil_of_not_lt (k + 1) s e hne]
      constructor
      · intro x
        simp only [List.not_mem_nil, false_iff]
        rintro ⟨hxv, hxd, h1, h2⟩
        exact absurd (dltB_of_dleB_of_dltB h1 h2) (by simp [hne])
      · exact List.chain'_nil

/-! ## Grouping and rollup lemmas -/

theorem mem_dedupF {α : Type} [DecidableEq α] (l : List α) (a : α) :
    a ∈ dedupF l ↔ a ∈ l := by
  induction l with
  | nil => simp [dedupF]
  | cons b t ih =>
    by_cases h : a = b
    · subst h
      simp [dedupF]
    · simp [dedupF, List.mem_filter, h, ih]

theorem dedupF_nodup {α : Type} [DecidableEq α] (l : List α) : (dedupF l).Nodup := by
  induction l with
  | nil => simp [dedupF]
  | cons b t ih =>
    unfold dedupF
    refine List.Nodup.cons ?_ (List.Nodup.filter _ ih)
    intro hmem
    have := (List.mem_filter.mp hmem).2
    simp at this

theorem find?_eq_self {α : Type} [DecidableEq α] (M : List α) (k : α) :
    M.find? (fun b => decide (b = k)) = if k ∈ M then some k else none := by
  induction M with
  | nil => simp
  | cons a t ih =>
    rw [List.find?_cons]
    by_cases h : a = k
    · subst h
      simp
    · simp [decide_eq_false h, ih, List.mem_cons, Ne.symm h]

theorem length_filter_or_disjoint {α : Type} (l : List α) (p q : α → Bool)
    (hdis : ∀ a, ¬(p a = true ∧ q a = true)) :
    (l.filter (fun a => p a || q a)).length = (l.filter p).length + (l.filter q).length := by
  induction l with
  | nil => simp
  | cons a t ih =>
    by_cases hp : p a = true
    · have hq : q a = false := by
        by_cases hq' : q a = true
        · exact absurd ⟨hp, hq'⟩ (hdis a)
        · simpa using hq'
      simp [List.filter_cons, hp, hq, ih]
      omega
    · have hp' : p a = false := by simpa using hp
      by_cases hq : q a = true
      · simp [List.filter_cons, hp', hq, ih]
        omega
      · have hq' : q a = false := by simpa using hq
        simp [List.filter_cons, hp', hq', ih]

theorem sum_filter_lengths {α κ : Type} [DecidableEq κ] (l : List α) (f : α → κ) :
    ∀ K : List κ, K.Nodup →
    ((K.map (fun k => (l.filter (fun a => decide (f a = k))).length)).sum) =
      (l.filter (fun a => decide (f a ∈ K))).length := by
  intro K
  induction K with
  | nil =>
    intro _
    simp
  | cons k K ih =>
    intro hnd
    have hk : k ∉ K := (List.nodup_cons.mp hnd).1
    have hK : K.Nodup := (List.nodup_cons.mp hnd).2
    have hsplit :
        (l.filter (fun a => decide (f a ∈ k :: K))).length =
          (l.filter (fun a => decide (f a = k))).length +
            (l.filter (fun a => decide (f a ∈ K))).length := by
      have heq : (fun a => decide (f a ∈ k :: K)) =
          (fun a => decide (f a = k) || decide (f a ∈ K)) := by
        funext a
        simp [List.mem_cons]
      rw [heq]
      refine length_filter_or_disjoint l _ _ ?_
      intro a ⟨h1, h2⟩
      simp only [decide_eq_true_eq] at h1 h2
      exact hk (h1 ▸ h2)
    simp only [List.map_cons, List.sum_cons, ih hK, hsplit]

theorem groupByFirst_find? {α κ : Type} [DecidableEq κ] (f : α → κ) (l : List α) (k : κ) :
    (groupByFirst f l).find? (fun p => decide (p.1 = k)) =
      if k ∈ l.map f then some (k, l.filter (fun a => decide (f a = k))) else none := by
  unfold groupByFirst
  rw [List.find?_map]
  have hcomp : ((fun p : κ × List α => decide (p.1 = k)) ∘
      (fun k' => (k', l.filter (fun a => decide (f a = k'))))) =
        fun k' => decide (k' = k) := rfl
  rw [hcomp, find?_eq_self]
  by_cases h : k ∈ l.map f
  · rw [if_pos ((mem_dedupF _ k).mpr h), if_pos h]
    rfl
  · rw [if_neg (fun hc => h ((mem_dedupF _ k).mp hc)), if_neg h]
    rfl

theorem groupByFirst_keys {α κ : Type} [DecidableEq κ] (f : α → κ) (l : List α) :
    (groupByFirst f l).map Prod.fst = dedupF (l.map f) := by
  unfold groupByFirst
  rw [List.map_map]
  exact List.map_id _

theorem find?_map_keep_fst {κ β γ : Type} [DecidableEq κ] (L : List (κ × β)) (F : β → γ)
    (k : κ) :
    ((L.map (fun g => (g.1, F g.2))).find? (fun p => decide (p.1 = k))) =
      (L.find? (fun p => decide (p.1 = k))).map (fun g => (g.1, F g.2)) := by
  induction L with
  | nil => rfl
  | cons a t ih =>
    by_cases h : a.1 = k
    · simp [List.find?_cons, h]
    · simp [List.find?_cons, h, ih]

theorem rollup2_find? (l : List Rec) (k : Option Date) :
    (rollup2 l).find? (fun p => decide (p.1 = k)) =
      if k ∈ l.map (fun r => r.date) then
        some (k, (groupByFirst (fun r => r.type)
            (l.filter (fun r => decide (r.date = k)))).map (fun h => (h.1, h.2.length)))
      else none := by
  have h1 := find?_map_keep_fst (groupByFirst (fun r => r.date) l)
    (fun b : List Rec => (groupByFirst (fun r => r.type) b).map (fun h => (h.1, h.2.length))) k
  have h0 : (rollup2 l).find? (fun p => decide (p.1 = k)) =
      ((groupByFirst (fun r => r.date) l).map
        (fun g => (g.1, (groupByFirst (fun r => r.type) g.2).map
          (fun h => (h.1, h.2.length))))).find? (fun p => decide (p.1 = k)) := rfl
  rw [h0, h1, groupByFirst_find? (fun r => r.date) l k]
  by_cases h : k ∈ l.map (fun r => r.date)
  · rw [if_pos h, if_pos h]
    rfl
  · rw [if_neg h, if_neg h]
    rfl

theorem typeCountSum_rollup2 (l : List Rec) (k : Option Date) :
    typeCountSum (rollup2 l) k = (l.filter (fun r => decide (r.date = k))).length := by
  unfold typeCountSum
  rw [rollup2_find?]
  by_cases h : k ∈ l.map (fun r => r.date)
  · rw [if_pos h]
    simp only [Option.map_some', Option.getD_some]
    rw [List.map_map]
    have hcomp : ((fun q : String × Nat => q.2) ∘
        (fun h : String × List Rec => (h.1, h.2.length))) =
        fun h : String × List Rec => h.2.length := rfl
    rw [hcomp]
    unfold groupByFirst
    rw [List.map_map]
    have hcomp2 : ((fun h : String × List Rec => h.2.length) ∘
        (fun t => (t, (l.filter (fun r => decide (r.date = k))).filter
          (fun a => decide (a.type = t))))) =
        fun t => ((l.filter (fun r => decide (r.date = k))).filter
          (fun a => decide (a.type = t))).length := rfl
    rw [hcomp2]
    rw [sum_filter_lengths (l.filter (fun r => decide (r.date = k))) (fun r => r.type) _
      (dedupF_nodup _)]
    have hall : (l.filter (fun r => decide (r.date = k))).filter
        (fun a => decide (a.type ∈ dedupF ((l.filter (fun r => decide (r.date = k))).map
          (fun r => r.type)))) =
        l.filter (fun r => decide (r.date = k)) := by
      apply List.filter_eq_self.mpr
      intro a ha
      simp only [decide_eq_true_eq]
      exact (mem_dedupF _ _).mpr (List.mem_map_of_mem _ ha)
    rw [hall]
  · rw [if_neg h]
    simp only [Option.map_none', Option.getD_none]
    symm
    rw [List.length_eq_zero, List.filter_eq_nil_iff]
    intro a ha
    simp only [decide_eq_true_eq]
    intro hak
    exact h (by rw [← hak]; exact List.mem_map_of_mem _ ha)

theorem inner_find? (g : List Rec) (ty : String) :
    (((groupByFirst (fun r => r.type) g).map (fun h => (h.1, h.2.length))).find?
        (fun q => decide (q.1 = ty))) =
      if ty ∈ g.map (fun r => r.type) then
        some (ty, (g.filter (fun r => decide (r.type = ty))).length) else none := by
  have h1 := find?_map_keep_fst (groupByFirst (fun r => r.type) g)
    (fun b : List Rec => b.length) ty
  rw [h1, groupByFirst_find? (fun r => r.type) g ty]
  by_cases h : ty ∈ g.map (fun r => r.type)
  · rw [if_pos h, if_pos h]
    rfl
  · rw [if_neg h, if_neg h]
    rfl

theorem typesVal_inner (g : List Rec) (ty : String) (h : ty ∈ g.map (fun r => r.type)) :
    typesVal ((groupByFirst (fun r => r.type) g).map (fun h => (h.1, h.2.length))) ty =
      (g.filter (fun r => decide (r.type = ty))).length := by
  unfold typesVal
  rw [inner_find?, if_pos h]
  rfl

theorem dcLookup_rollup2 (l : List Rec) (dk : Option Date) (ty : String) :
    dcLookup (rollup2 l) dk ty =
      if dk ∈ l.map (fun r => r.date) ∧
          ty ∈ (l.filter (fun r => decide (r.date = dk))).map (fun r => r.type) then
        some (((l.filter (fun r => decide (r.date = dk))).filter
          (fun r => decide (r.type = ty))).length)
      else none := by
  unfold dcLookup
  rw [rollup2_find?]
  by_cases h : dk ∈ l.map (fun r => r.date)
  · rw [if_pos h]
    show (((groupByFirst (fun r => r.type) (l.filter (fun r => decide (r.date = dk)))).map
        (fun h => (h.1, h.2.length))).find? (fun q => decide (q.1 = ty))).map
          (fun q => q.2) = _
    rw [inner_find?]
    by_cases h2 : ty ∈ (l.filter (fun r => decide (r.date = dk))).map (fun r => r.type)
    · rw [if_pos h2, if_pos ⟨h, h2⟩]
      rfl
    · rw [if_neg h2, if_neg (fun hc => h2 hc.2)]
      rfl
  · rw [if_neg h, if_neg (fun hc => h hc.1)]
    rfl

theorem mem_rollup2 (l : List Rec) (p : Option Date × List (String × Nat)) :
    p ∈ rollup2 l ↔ p.1 ∈ l.map (fun r => r.date) ∧
      p.2 = (groupByFirst (fun r => r.type) (l.filter (fun r => decide (r.date = p.1)))).map
        (fun h => (h.1, h.2.length)) := by
  constructor
  · intro hp
    unfold rollup2 at hp
    rw [List.mem_map] at hp
    obtain ⟨g, hg, rfl⟩ := hp
    unfold groupByFirst at hg
    rw [List.mem_map] at hg
    obtain ⟨k, hk, rfl⟩ := hg
    exact ⟨(mem_dedupF _ _).mp hk, rfl⟩
  · intro hp
    obtain ⟨pk, pv⟩ := p
    obtain ⟨h1, h2⟩ := hp
    simp only at h1 h2
    rw [h2]
    unfold rollup2
    rw [List.mem_map]
    refine ⟨(pk, l.filter (fun r => decide (r.date = pk))), ?_, rfl⟩
    unfold groupByFirst
    rw [List.mem_map]
    exact ⟨pk, (mem_dedupF _ _).mpr h1, rfl⟩

theorem rollup2_keys (l : List Rec) :
    (rollup2 l).map (fun p => p.1) = dedupF (l.map (fun r => r.date)) := by
  unfold rollup2
  rw [List.map_map]
  exact groupByFirst_keys (fun r => r.date) l

theorem extract_keysList (l : List Rec) (p : Option Date × List (String × Nat))
    (hp : p ∈ rollup2 l) :
    p.2.map Prod.fst =
      dedupF ((l.filter (fun r => decide (r.date = p.1))).map (fun r => r.type)) := by
  obtain ⟨h1, h2⟩ := (mem_rollup2 l p).mp hp
  rw [h2, List.map_map]
  have hcomp : (Prod.fst ∘ fun h : String × List Rec => (h.1, h.2.length)) =
      Prod.fst := rfl
  rw [hcomp]
  exact groupByFirst_keys (fun r : Rec => r.type) (l.filter (fun r => decide (r.date = p.1)))

theorem mem_extract_iff (l : List Rec) (key : String)
    (x : Option Date × Nat × String) :
    x ∈ extractActivity (rollup2 l) key ↔
      (x.2.2 = key ∧ dcLookup (rollup2 l) x.1 key = some x.2.1) := by
  unfold extractActivity
  rw [List.mem_map]
  constructor
  · rintro ⟨p, hp, rfl⟩
    rw [List.mem_filter] at hp
    obtain ⟨hpdc, hpkey⟩ := hp
    simp only [decide_eq_true_eq] at hpkey
    rw [extract_keysList l p hpdc, mem_dedupF] at hpkey
    obtain ⟨h1, h2⟩ := (mem_rollup2 l p).mp hpdc
    refine ⟨rfl, ?_⟩
    show dcLookup (rollup2 l) p.1 key = some (typesVal p.2 key)
    rw [dcLookup_rollup2, if_pos ⟨h1, hpkey⟩, h2,
      typesVal_inner (l.filter (fun r => decide (r.date = p.1))) key hpkey]
  · rintro ⟨h3, hlk⟩
    rw [dcLookup_rollup2] at hlk
    by_cases hc : x.1 ∈ l.map (fun r => r.date) ∧
        key ∈ (l.filter (fun r => decide (r.date = x.1))).map (fun r => r.type)
    · rw [if_pos hc] at hlk
      obtain ⟨hc1, hc2⟩ := hc
      refine ⟨(x.1, (groupByFirst (fun r : Rec => r.type)
        (l.filter (fun r => decide (r.date = x.1)))).map (fun h => (h.1, h.2.length))),
        ?_, ?_⟩
      · rw [List.mem_filter]
        constructor
        · exact (mem_rollup2 l (x.1, (groupByFirst (fun r : Rec => r.type)
            (l.filter (fun r => decide (r.date = x.1)))).map
              (fun h => (h.1, h.2.length)))).mpr ⟨hc1, rfl⟩
        · simp only [decide_eq_true_eq]
          rw [List.map_map]
          have hcomp : (Prod.fst ∘ fun h : String × List Rec => (h.1, h.2.length)) =
              Prod.fst := rfl
          rw [hcomp, groupByFirst_keys (fun r : Rec => r.type)
            (l.filter (fun r => decide (r.date = x.1)))]
          exact (mem_dedupF _ _).mpr hc2
      · rw [typesVal_inner (l.filter (fun r => decide (r.date = x.1))) key hc2]
        simp only [Option.some.injEq] at hlk
        rw [hlk, ← h3]
    · rw [if_neg hc] at hlk
      exact absurd hlk (by simp)

theorem mem_dataCells_iff (data : List (String × List Rec))
    (x : Option Date × Nat × String) :
    x ∈ dataCellsOf data ↔
      (x.2.2 ∈ activityTypes data ∧
        dcLookup (rollup2 (mergedRecords data)) x.1 x.2.2 = some x.2.1) := by
  unfold dataCellsOf
  rw [List.mem_flatten]
  constructor
  · rintro ⟨L, hL, hx⟩
    rw [List.mem_map] at hL
    obtain ⟨ty', hty', rfl⟩ := hL
    obtain ⟨h3, hlk⟩ := (mem_extract_iff (mergedRecords data) ty' x).mp hx
    rw [← h3] at hty' hlk
    exact ⟨hty', hlk⟩
  · rintro ⟨hty, hlk⟩
    refine ⟨extractActivity (rollup2 (mergedRecords data)) x.2.2, ?_, ?_⟩
    · rw [List.mem_map]
      exact ⟨x.2.2, hty, rfl⟩
    · exact (mem_extract_iff (mergedRecords data) x.2.2 x).mpr ⟨rfl, hlk⟩

theorem extract_nodup (l : List Rec) (key : String) :
    (extractActivity (rollup2 l) key).Nodup := by
  apply List.Nodup.of_map (fun t : Option Date × Nat × String => t.1)
  have he : (extractActivity (rollup2 l) key).map (fun t => t.1) =
      ((rollup2 l).filter (fun p => decide (key ∈ p.2.map Prod.fst))).map
        (fun p => p.1) := by
    unfold extractActivity
    rw [List.map_map]
    rfl
  rw [he]
  have hsub : List.Sublist (((rollup2 l).filter
      (fun p => decide (key ∈ p.2.map Prod.fst))).map (fun p => p.1))
      ((rollup2 l).map (fun p => p.1)) :=
    List.Sublist.map _ (List.filter_sublist _)
  have hnd : ((rollup2 l).map (fun p => p.1)).Nodup := by
    rw [rollup2_keys]
    exact dedupF_nodup _
  exact hnd.sublist hsub

theorem dataCells_aux_nodup (l : List Rec) (tys : List String) (hnd : tys.Nodup) :
    ((tys.map (fun ty => extractActivity (rollup2 l) ty)).flatten).Nodup := by
  induction tys with
  | nil => simp
  | cons ty ts ih =>
    rw [List.map_cons, List.flatten_cons]
    have hts : ts.Nodup := (List.nodup_cons.mp hnd).2
    have hty : ty ∉ ts := (List.nodup_cons.mp hnd).1
    refine List.Nodup.append (extract_nodup l ty) (ih hts) ?_
    intro x hx1 hx2
    have e1 : x.2.2 = ty := ((mem_extract_iff l ty x).mp hx1).1
    rw [List.mem_flatten] at hx2
    obtain ⟨L, hL, hx⟩ := hx2
    rw [List.mem_map] at hL
    obtain ⟨ty', hty', rfl⟩ := hL
    have e2 : x.2.2 = ty' := ((mem_extract_iff l ty' x).mp hx).1
    exact hty (by rw [← e1, e2]; exact hty')

theorem dataCells_nodup (data : List (String × List Rec))
    (hk : (activityTypes data).Nodup) : (dataCellsOf data).Nodup :=
  dataCells_aux_nodup (mergedRecords data) (activityTypes data) hk

theorem foldl_min_le (t : List Nat) : ∀ a : Nat, t.foldl min a ≤ a := by
  induction t with
  | nil => intro a; exact le_refl a
  | cons b t ih => intro a; exact le_trans (ih (min a b)) (min_le_left a b)

theorem le_foldl_max (t : List Nat) : ∀ a : Nat, a ≤ t.foldl max a := by
  induction t with
  | nil => intro a; exact le_refl a
  | cons b t ih => intro a; exact le_trans (le_max_left a b) (ih (max a b))

theorem extentMin_le_extentMax (l : List Nat) : extentMin l ≤ extentMax l := by
  unfold extentMin extentMax
  cases l with
  | nil => simp
  | cons a t =>
    rw [List.min?_cons', List.max?_cons']
    simp only [Option.getD_some]
    exact le_trans (foldl_min_le t a) (le_foldl_max t a)

/-! ## Claim theorems -/

/-- C1, counterexample: for the range 2021-01-31 (a Sunday) to 2021-02-14,
both loop steps re-anchor to the week of February 1 (the overlong
`isoDaysofWeek` span of each stepped Sunday reaches Feb 1), so weekIndicies
holds the key `"2021-5"` twice — the claimed strict increase / no-duplicate
invariant fails on a range with `dateStart < dateEnd`. -/
theorem c1_weekIndicies_duplicate_keys :
    dltB ⟨2021, 1, 31⟩ ⟨2021, 2, 14⟩ = true ∧
    weeksList ⟨2021, 1, 31⟩ ⟨2021, 2, 14⟩ = [(2021, 5), (2021, 5)] ∧
    ¬ (weeksList ⟨2021, 1, 31⟩ ⟨2021, 2, 14⟩).Nodup := by
  decide

/-- C1 (amended): for every valid `dateStart < dateEnd`, the number of
entries of weekIndicies equals the ceiling of the number of weeks between
the two dates; the ordered key sequence, however, may contain duplicates
(the first-of-month re-anchor can emit the same WeekKey twice). -/
theorem c1_weekIndicies_length (s e : Date) (hs : s.Valid) (he : e.Valid)
    (hlt : dltB s e = true) :
    (weeksList s e).length = (toDayNumber e - toDayNumber s + 6) / 7 := by
  unfold weeksList
  exact weeksF_length_eq _ s e hs he (by omega)

theorem c1_weekIndicies_length_witness :
    Date.Valid ⟨2021, 1, 1⟩ ∧ Date.Valid ⟨2021, 1, 15⟩ ∧
      dltB ⟨2021, 1, 1⟩ ⟨2021, 1, 15⟩ = true ∧
      (weeksList ⟨2021, 1, 1⟩ ⟨2021, 1, 15⟩).length =
        (toDayNumber ⟨2021, 1, 15⟩ - toDayNumber ⟨2021, 1, 1⟩ + 6) / 7 :=
  ⟨by decide, by decide, by decide,
    c1_weekIndicies_length ⟨2021, 1, 1⟩ ⟨2021, 1, 15⟩ (by decide) (by decide) (by decide)⟩

/-- C2: in the README revision's month-annotation lookup, whenever the
week-key years span more than one distinct year and the date's ISO week is
53 or 1, the lookup key is re-derived — `(year, 1)` for week 1 and
`(year - 1, 53)` for week 53 — and if that key is absent from weekIndicies
(`indexOf` returns the sentinel `-1`) the annotation falls back to the
default offset `artboardUnit` instead of crashing. -/
theorem c2_year_boundary_lookup (wI : List (Nat × Nat)) (d : Date)
    (cellWidth artboardUnit : Int)
    (hmulti : (readmeYears wI).length > 1)
    (hw : isoWeek d = 53 ∨ isoWeek d = 1) :
    readmeMonthKey wI d = (if isoWeek d = 1 then (d.year, 1) else (d.year - 1, 53)) ∧
    (indexOfJS wI (readmeMonthKey wI d) = -1 →
      readmeMonthX wI d cellWidth artboardUnit = artboardUnit) := by
  have hkey : readmeMonthKey wI d =
      if (readmeYears wI).length > 1 ∧ (isoWeek d = 53 ∨ isoWeek d = 1) then
        (if isoWeek d = 1 then (d.year, 1) else (d.year - 1, isoWeek d))
      else (d.year, isoWeek d) := rfl
  constructor
  · rw [hkey, if_pos ⟨hmulti, hw⟩]
    rcases hw with h53 | h1
    · rw [if_neg (by omega), if_neg (by omega), h53]
    · rw [if_pos h1, if_pos h1]
  · intro habs
    show (if indexOfJS wI (readmeMonthKey wI d) = -1 then artboardUnit
      else indexOfJS wI (readmeMonthKey wI d) * cellWidth) = artboardUnit
    rw [if_pos habs]

theorem c2_year_boundary_lookup_witness :
    (readmeYears [(2020, 5), (2021, 9)]).length > 1 ∧
      (isoWeek ⟨2021, 1, 1⟩ = 53 ∨ isoWeek ⟨2021, 1, 1⟩ = 1) ∧
      readmeMonthKey [(2020, 5), (2021, 9)] ⟨2021, 1, 1⟩ = (2020, 53) ∧
      readmeMonthX [(2020, 5), (2021, 9)] ⟨2021, 1, 1⟩ 3 7 = 7 :=
  ⟨by decide, by decide,
    (c2_year_boundary_lookup [(2020, 5), (2021, 9)] ⟨2021, 1, 1⟩ 3 7 (by decide)
      (by decide)).1.trans (by decide),
    (c2_year_boundary_lookup [(2020, 5), (2021, 9)] ⟨2021, 1, 1⟩ 3 7 (by decide)
      (by decide)).2 (by decide)⟩

/-- C3, counterexample: stepping from 2021-01-31 with end 2021-02-07, the
7-day Monday–Sunday ISO week of the stepped date (Jan 25 – Jan 31) contains
no first-of-month day, so the claim predicts the date's own key `"2021-4"`;
the code emits `"2021-5"` because `isoDaysofWeek` actually spans Jan 25 –
Feb 5 and catches February 1. -/
theorem c3_weeks_reanchor_beyond_iso_week :
    weeksList ⟨2021, 1, 31⟩ ⟨2021, 2, 7⟩ = [(2021, 5)] ∧
    subDays (isoWeekday ⟨2021, 1, 31⟩ - 1) ⟨2021, 1, 31⟩ = ⟨2021, 1, 25⟩ ∧
    ((List.range 7).map (fun k => addDays k ⟨2021, 1, 25⟩)).filter
      (fun x => decide (x.day = 1)) = [] ∧
    weekKeyOf ⟨2021, 1, 31⟩ = (2021, 4) ∧
    ((2021, 5) : Nat × Nat) ≠ ((2021, 4) : Nat × Nat) := by
  decide

/-- C3 (amended): entry `i` of weekIndicies is the step key of
`dateStart + 7·i` days, and the step key is the stepped date's own
`"YYYY-W"` key unless the span actually returned by `isoDaysofWeek` — which
runs from the ISO-week Monday to five days after the stepped date, not the
7-day Monday–Sunday week — contains a first-of-month day, in which case the
key of the first such day is emitted. -/
theorem c3_weeks_step (s e : Date) (i : Nat) (h : i < (weeksList s e).length) :
    (weeksList s e).get ⟨i, h⟩ = stepKey (addDays (7 * i) s) ∧
    (∀ d : Date,
      ((isoDaysofWeek d).filter (fun x => decide (x.day = 1)) = [] →
        stepKey d = weekKeyOf d) ∧
      (∀ f rest, (isoDaysofWeek d).filter (fun x => decide (x.day = 1)) = f :: rest →
        stepKey d = weekKeyOf f)) := by
  constructor
  · unfold weeksList at h ⊢
    have hq := weeksF_getElem (toDayNumber e + 7 - toDayNumber s) s e i h
    rw [List.getElem?_eq_getElem h] at hq
    simp only [Option.some.injEq] at hq
    rw [List.get_eq_getElem]
    exact hq
  · intro d
    constructor
    · intro hnil
      unfold stepKey
      rw [hnil]
    · intro f rest hcons
      unfold stepKey
      rw [hcons]

theorem c3_weeks_step_witness :
    1 < (weeksList ⟨2021, 1, 1⟩ ⟨2021, 1, 15⟩).length ∧
      (weeksList ⟨2021, 1, 1⟩ ⟨2021, 1, 15⟩).get ⟨1, by decide⟩ =
        stepKey (addDays (7 * 1) ⟨2021, 1, 1⟩) :=
  ⟨by decide,
    (c3_weeks_step ⟨2021, 1, 1⟩ ⟨2021, 1, 15⟩ 1 (by decide)).1⟩

/-- C4: `isoDaysofWeek` is claimed to return the 7 Monday–Sunday dates of
the ISO week, but its end bound is built from the input date
(`currentDate + 6 days`) instead of the week start, so it returns
`isoWeekday + 5` dates.  At the Monday 2021-01-04 it returns only the 6
dates Jan 4 – Jan 9 and omits the week's Sunday, Jan 10; at the Sunday
2021-01-10 it returns 12 dates. -/
theorem c4_isoDaysofWeek_wrong_span :
    isoDaysofWeek ⟨2021, 1, 4⟩ =
      [⟨2021, 1, 4⟩, ⟨2021, 1, 5⟩, ⟨2021, 1, 6⟩, ⟨2021, 1, 7⟩,
        ⟨2021, 1, 8⟩, ⟨2021, 1, 9⟩] ∧
    (isoDaysofWeek ⟨2021, 1, 4⟩).length ≠ 7 ∧
    isoWeekday ⟨2021, 1, 4⟩ = 1 ∧
    (⟨2021, 1, 10⟩ : Date) ∉ isoDaysofWeek ⟨2021, 1, 4⟩ ∧
    (isoDaysofWeek ⟨2021, 1, 10⟩).length = 12 := by
  decide

/-- C5, counterexample: for the 8-day range 2021-01-01 to 2021-01-09 with
cellSize 10 the computed width is 20 (`diff(…, "week")` truncates 8/7 to
1), not the claimed `cellSize * ceil(weeks) + padding = 30`. -/
theorem c5_layout_width_truncates :
    (layoutCalc ⟨2021, 1, 1⟩ ⟨2021, 1, 9⟩ 10).width = 20 ∧
    toDayNumber ⟨2021, 1, 9⟩ - toDayNumber ⟨2021, 1, 1⟩ = 8 ∧
    (20 : Int) ≠ 10 * (((8 + 6) / 7 : Nat) : Int) + 10 := by
  decide

/-- C5 (amended): for every valid `dateStart ≤ dateEnd` and cellSize, the
layout height is `cellSize * 7` plus the month/year padding (= cellSize)
and the width is `cellSize * floor(weeks in range)` plus the weekday-label
padding (= cellSize) — the week count is truncated, not rounded up.  Both
are functions of the dates and cellSize alone (`layoutCalc` takes no
activity data). -/
theorem c5_layout (s e : Date) (c : Nat) (hs : s.Valid) (he : e.Valid)
    (hle : toDayNumber s ≤ toDayNumber e) :
    (layoutCalc s e c).height = c * 7 + c ∧
    (layoutCalc s e c).paddingMonthsOfYear = c ∧
    (layoutCalc s e c).paddingDaysOfWeek = c ∧
    (layoutCalc s e c).width =
      (c : Int) * (((toDayNumber e - toDayNumber s) / 7 : Nat) : Int) + (c : Int) := by
  refine ⟨rfl, rfl, rfl, ?_⟩
  show (c : Int) * (((toDayNumber e : Int) - (toDayNumber s : Int)).tdiv 7) + (c : Int) = _
  have h1 : (toDayNumber e : Int) - (toDayNumber s : Int) =
      ((toDayNumber e - toDayNumber s : Nat) : Int) := by omega
  rw [h1]
  have h2 : Int.tdiv ((toDayNumber e - toDayNumber s : Nat) : Int) 7 =
      (((toDayNumber e - toDayNumber s) / 7 : Nat) : Int) := rfl
  rw [h2]

theorem c5_layout_witness :
    Date.Valid ⟨2021, 1, 1⟩ ∧ Date.Valid ⟨2021, 1, 9⟩ ∧
      toDayNumber ⟨2021, 1, 1⟩ ≤ toDayNumber ⟨2021, 1, 9⟩ ∧
      (layoutCalc ⟨2021, 1, 1⟩ ⟨2021, 1, 9⟩ 10).width =
        (10 : Int) * (((toDayNumber ⟨2021, 1, 9⟩ - toDayNumber ⟨2021, 1, 1⟩) / 7 : Nat) : Int) +
          (10 : Int) :=
  ⟨by decide, by decide, by decide,
    (c5_layout ⟨2021, 1, 1⟩ ⟨2021, 1, 9⟩ 10 (by decide) (by decide) (by decide)).2.2.2⟩

/-- C6, counterexample: for the range 2021-01-15 to 2021-02-20 the months
list is `["2021-01-15", "2021-02-15"]` — the loop steps `dateStart` itself
by one month — so it contains a date that is not a first-of-month and
misses 2021-02-01, the first of a month whose span intersects the range. -/
theorem c6_months_not_first_of_month :
    monthsList ⟨2021, 1, 15⟩ ⟨2021, 2, 20⟩ = [⟨2021, 1, 15⟩, ⟨2021, 2, 15⟩] ∧
    (⟨2021, 1, 15⟩ : Date) ∈ monthsList ⟨2021, 1, 15⟩ ⟨2021, 2, 20⟩ ∧
    (⟨2021, 1, 15⟩ : Date).day ≠ 1 ∧
    (⟨2021, 2, 1⟩ : Date) ∉ monthsList ⟨2021, 1, 15⟩ ⟨2021, 2, 20⟩ ∧
    dleB ⟨2021, 1, 15⟩ ⟨2021, 2, 1⟩ = true ∧
    dltB ⟨2021, 2, 1⟩ ⟨2021, 2, 20⟩ = true := by
  decide

/-- C6 (amended): when `dateStart` is itself the first day of a month, the
months list contains exactly the first-of-month date of every month whose
span intersects `[dateStart, dateEnd)` — i.e. every valid first-of-month
date `x` with `dateStart ≤ x < dateEnd` — in strictly ascending order; in
general the loop emits `dateStart` stepped month by month, not
first-of-month dates. -/
theorem c6_months_first_of_month (s e : Date) (hd : s.day = 1) (hs : s.Valid)
    (he : e.Valid) :
    (∀ x : Date, x ∈ monthsList s e ↔
      (x.Valid ∧ x.day = 1 ∧ dleB s x = true ∧ dltB x e = true)) ∧
    (monthsList s e).Chain' (fun a b => dltB a b = true) := by
  have hb : 12 * e.year + e.month + 1 ≤
      12 * s.year + s.month + (12 * (e.year + 2) - 12 * s.year) := by
    have hs' := hs
    have he' := he
    unfold Date.Valid at hs' he'
    obtain ⟨hs1, hs2, hs3, _, _⟩ := hs'
    obtain ⟨he1, he2, he3, _, _⟩ := he'
    omega
  unfold monthsList
  exact monthsF_spec _ s e hd hs he hb

theorem c6_months_first_of_month_witness :
    (⟨2021, 1, 1⟩ : Date).day = 1 ∧
      (⟨2021, 2, 1⟩ : Date) ∈ monthsList ⟨2021, 1, 1⟩ ⟨2021, 3, 15⟩ :=
  ⟨rfl,
    ((c6_months_first_of_month ⟨2021, 1, 1⟩ ⟨2021, 3, 15⟩ rfl (by decide) (by decide)).1
      ⟨2021, 2, 1⟩).mpr (by decide)⟩

/-- C7: count conservation — for every input series set and every valid
date `d`, the sum over all activity types of the aggregated per-day counts
at `d` equals the number of raw records (across all series) whose date
parses to `d`.  Records whose date cannot be parsed aggregate under the
separate `"Invalid date"` key (`none`) and never contribute to any real
date's count. -/
theorem c7_count_conservation (data : List (String × List Rec)) (d : Date) :
    typeCountSum (rollup2 (mergedRecords data)) (some d) =
      ((mergedRecords data).filter (fun r => decide (r.date = some d))).length :=
  typeCountSum_rollup2 (mergedRecords data) (some d)

/-- C8: the quantize threshold over all cell counts classifies into buckets
1, 2, 3 cut at thirds of `[min, max]` (comparisons scaled by 3 to stay in
integers), is monotone — `a < b` implies `bucket a ≤ bucket b` — and sends
a count equal to a bucket boundary to the higher bucket. -/
theorem c8_threshold (cells : List (Option Date × Nat × String)) (a b : Nat)
    (hab : a < b) :
    constructThreshold cells a ≤ constructThreshold cells b ∧
    (constructThreshold cells a = 1 ∨ constructThreshold cells a = 2 ∨
      constructThreshold cells a = 3) ∧
    (3 * a < 2 * extentMin (cells.map (fun c => c.2.1)) +
        extentMax (cells.map (fun c => c.2.1)) →
      constructThreshold cells a = 1) ∧
    (2 * extentMin (cells.map (fun c => c.2.1)) +
        extentMax (cells.map (fun c => c.2.1)) ≤ 3 * a →
      2 ≤ constructThreshold cells a) ∧
    (extentMin (cells.map (fun c => c.2.1)) +
        2 * extentMax (cells.map (fun c => c.2.1)) ≤ 3 * a →
      constructThreshold cells a = 3) := by
  have key : ∀ x : Nat, constructThreshold cells x =
      (if 3 * x < 2 * extentMin (cells.map (fun c => c.2.1)) +
          extentMax (cells.map (fun c => c.2.1)) then 1
        else if 3 * x < extentMin (cells.map (fun c => c.2.1)) +
          2 * extentMax (cells.map (fun c => c.2.1)) then 2 else 3) :=
    fun x => rfl
  have hmm := extentMin_le_extentMax (cells.map (fun c => c.2.1))
  simp only [key]
  split_ifs <;> omega

theorem c8_threshold_witness :
    (1 : Nat) < 2 ∧
      constructThreshold [(some ⟨2021, 1, 1⟩, 0, "w"), (some ⟨2021, 1, 2⟩, 3, "w")] 1 ≤
        constructThreshold [(some ⟨2021, 1, 1⟩, 0, "w"), (some ⟨2021, 1, 2⟩, 3, "w")] 2 :=
  ⟨by decide,
    (c8_threshold [(some ⟨2021, 1, 1⟩, 0, "w"), (some ⟨2021, 1, 2⟩, 3, "w")] 1 2
      (by decide)).1⟩

/-- C9, counterexample: with a nonempty series and `dateStart = dateEnd`,
the conditioning pass leaves weekIndicies empty but still emits one cell
per aggregated (date, type) pair — `extractActivity` never consults the
range — so the claimed empty cell list is wrong. -/
theorem c9_cells_not_emptied :
    dltB ⟨2021, 1, 1⟩ ⟨2021, 1, 1⟩ = false ∧
    (conditionBody [("work", [⟨some ⟨2021, 1, 1⟩, "work", 1⟩])]
      ⟨2021, 1, 1⟩ ⟨2021, 1, 1⟩).weekIndicies = [] ∧
    (conditionBody [("work", [⟨some ⟨2021, 1, 1⟩, "work", 1⟩])]
      ⟨2021, 1, 1⟩ ⟨2021, 1, 1⟩).dataCells = [(some ⟨2021, 1, 1⟩, 1, "work")] ∧
    (conditionBody [("work", [⟨some ⟨2021, 1, 1⟩, "work", 1⟩])]
      ⟨2021, 1, 1⟩ ⟨2021, 1, 1⟩).dataCells ≠ [] := by
  decide

/-- C9 (amended): for every nonempty input with `dateStart >= dateEnd` the
conditioning pass runs without error and produces an empty column index and
an empty months list; the cell list is computed from the aggregated data
alone and is identical for every date range (hence not empty in general). -/
theorem c9_degenerate_range (data : List (String × List Rec)) (s e : Date)
    (hne : data ≠ []) (h : dltB s e = false) :
    condition data s e = some (conditionBody data s e) ∧
    (conditionBody data s e).weekIndicies = [] ∧
    (conditionBody data s e).months = [] ∧
    ∀ s' e' : Date, (conditionBody data s' e').dataCells =
      (conditionBody data s e).dataCells := by
  refine ⟨?_, ?_, ?_, fun s' e' => rfl⟩
  · unfold condition
    have hf : ¬ (data.isEmpty = true) := by
      simpa [List.isEmpty_iff] using hne
    rw [if_neg hf]
  · show weeksList s e = []
    unfold weeksList
    exact weeksF_nil_of_not_lt _ s e h
  · show monthsList s e = []
    unfold monthsList
    exact monthsF_nil_of_not_lt _ s e h

theorem c9_degenerate_range_witness :
    ([("work", [(⟨some ⟨2021, 1, 1⟩, "work", 1⟩ : Rec)])] :
      List (String × List Rec)) ≠ [] ∧
    dltB ⟨2021, 1, 2⟩ ⟨2021, 1, 2⟩ = false ∧
    (conditionBody [("work", [(⟨some ⟨2021, 1, 1⟩, "work", 1⟩ : Rec)])]
      ⟨2021, 1, 2⟩ ⟨2021, 1, 2⟩).weekIndicies = [] :=
  ⟨by decide, by decide,
    (c9_degenerate_range [("work", [(⟨some ⟨2021, 1, 1⟩, "work", 1⟩ : Rec)])]
      ⟨2021, 1, 2⟩ ⟨2021, 1, 2⟩ (by decide) (by decide)).2.1⟩

/-- C10, counterexample: a cell dated 2021-01-04, outside the range
2021-01-05 – 2021-01-12, is still emitted, but its column lookup returns 0
(its ISO week `"2021-1"` is the range's first column), not the claimed
sentinel `-1`. -/
theorem c10_out_of_range_cell_lookup :
    (conditionBody [("work", [⟨some ⟨2021, 1, 4⟩, "work", 1⟩])]
      ⟨2021, 1, 5⟩ ⟨2021, 1, 12⟩).dataCells = [(some ⟨2021, 1, 4⟩, 1, "work")] ∧
    dltB ⟨2021, 1, 4⟩ ⟨2021, 1, 5⟩ = true ∧
    (conditionBody [("work", [⟨some ⟨2021, 1, 4⟩, "work", 1⟩])]
      ⟨2021, 1, 5⟩ ⟨2021, 1, 12⟩).weekIndicies = [(2021, 1)] ∧
    columnWeek [(2021, 1)] ⟨2021, 1, 4⟩ = 0 ∧
    (0 : Int) ≠ -1 := by
  decide

/-- C10 (amended): after conditioning, the cell list contains exactly one
`(date, count, type)` entry for every (date, type) pair of the aggregated
DayCount whose type is one of the series keys, with the aggregated count;
the list is not filtered by the caller's date range (it is identical for
every range), and an out-of-range cell's column lookup returns `-1` exactly
when its (possibly first-of-year re-anchored) week key is absent from
weekIndicies — not in general. -/
theorem c10_cells_characterization (data : List (String × List Rec)) (s e : Date)
    (hk : (activityTypes data).Nodup) :
    (∀ (dk : Option Date) (c : Nat) (ty : String),
      (dk, c, ty) ∈ (conditionBody data s e).dataCells ↔
        (ty ∈ activityTypes data ∧
          dcLookup (conditionBody data s e).dayCount dk ty = some c)) ∧
    (conditionBody data s e).dataCells.Nodup ∧
    (∀ s' e' : Date, (conditionBody data s' e').dataCells =
      (conditionBody data s e).dataCells) := by
  refine ⟨?_, dataCells_nodup data hk, fun s' e' => rfl⟩
  intro dk c ty
  show (dk, c, ty) ∈ dataCellsOf data ↔
    (ty ∈ activityTypes data ∧ dcLookup (rollup2 (mergedRecords data)) dk ty = some c)
  simpa using mem_dataCells_iff data (dk, c, ty)

theorem c10_cells_characterization_witness :
    (activityTypes [("work", [(⟨some ⟨2021, 1, 4⟩, "work", 1⟩ : Rec)])]).Nodup ∧
    (some ⟨2021, 1, 4⟩, 1, "work") ∈
      (conditionBody [("work", [(⟨some ⟨2021, 1, 4⟩, "work", 1⟩ : Rec)])]
        ⟨2021, 1, 5⟩ ⟨2021, 1, 12⟩).dataCells :=
  ⟨by decide,
    ((c10_cells_characterization [("work", [(⟨some ⟨2021, 1, 4⟩, "work", 1⟩ : Rec)])]
      ⟨2021, 1, 5⟩ ⟨2021, 1, 12⟩ (by decide)).1 (some ⟨2021, 1, 4⟩) 1 "work").mpr
      (by decide)⟩
